import Mathlib

/-!
# Verification of the `gwargs` command-line argument parser

Shallow embedding of `gwargs.go` (package `gwargs`): a two-stage pipeline
tokenizing an argument vector into a flag map (`mapArgSlice`) and reflectively
binding a destination struct's fields from that map (`Parse`), with
integer/float overflow checks (`checkIntOverflow`, `checkUIntOverflow`,
`checkFloatOverflow`).

Modelling conventions:
* Go strings are modelled as `List Char` (`GoStr`); the Go standard library
  string operations used by the source (`strings.HasPrefix`, `TrimPrefix`,
  `Contains`, `SplitN` with separator `"="` and limit 2, `Split` on `""`,
  `EqualFold` restricted to ASCII) are given as explicit list functions.
* The flag map (`map[string]string`) is a function `GoStr → Option GoStr`;
  Go's zero-value lookup `m[k]` is `FlagMap.getD`.
* `strconv.ParseInt(·, 10, 64)` / `ParseUint(·, 10, 64)` are modelled exactly
  (optional sign for the signed form, base-10 digits, 64-bit range check);
  failure is `none`.
* Go floats are modelled as exact rationals: `strconv.ParseFloat` is modelled
  on plain signed decimal literals (every such literal used here is exactly
  representable, so IEEE-754 comparisons agree with the rational ones), and
  the `math.MaxFloat*` / `math.SmallestNonzeroFloat*` constants are their
  exact rational values.
* The out-of-range slice index `args[i+1]` in `mapArgSlice` (a runtime panic
  in Go) is modelled by the tokenizer returning `none`.
-/

deriving instance DecidableEq for Except

namespace Gwargs

/-- A Go string, as its sequence of characters. -/
abbrev GoStr := List Char

/-- Shorthand: the character list of a string literal. -/
def gs (s : String) : GoStr := s.data

/-- `strings.HasPrefix s p` (argument order: prefix first, then the string). -/
def listStartsWith : GoStr → GoStr → Bool
  | [], _ => true
  | _ :: _, [] => false
  | p :: ps, c :: cs => p = c && listStartsWith ps cs

/-- The flag map `map[string]string` produced by the tokenizer. -/
def FlagMap := GoStr → Option GoStr

/-- The empty map. -/
def FlagMap.empty : FlagMap := fun _ => none

/-- Map insertion `m[k] = v` (overwrites any earlier binding of `k`). -/
def FlagMap.insert (m : FlagMap) (k v : GoStr) : FlagMap :=
  fun x => if x = k then some v else m x

/-- Go map lookup `m[k]`: the zero value `""` when the key is absent. -/
def FlagMap.getD (m : FlagMap) (k : GoStr) : GoStr := (m k).getD []

/-- `strings.SplitN s "=" 2` when `s` contains `'='`: the part before the
first `'='` and the part after it. -/
def splitFirstEq : GoStr → GoStr × GoStr
  | [] => ([], [])
  | c :: cs =>
    if c = '=' then ([], cs)
    else
      let p := splitFirstEq cs
      (c :: p.1, p.2)

/-- The loop of `mapArgSlice` over the single-dash cluster: one empty-valued
entry per character (`strings.Split(arg[1:], "")`). -/
def insertFlags (m : FlagMap) : List Char → FlagMap
  | [] => m
  | c :: cs => insertFlags (m.insert [c] []) cs

/-- The scanning loop of `mapArgSlice` (index `i` ranges over the remaining
suffix of `args`; `res` is the accumulated map).  The Go source reads
`next := args[i+1]` without a bounds check; when no next token exists that
indexing panics at runtime, modelled here as `none`. -/
def mapArgSliceAux : List GoStr → FlagMap → Option FlagMap
  | [], res => some res
  | arg :: rest, res =>
    if listStartsWith (gs "--") arg then
      let a := arg.drop 2
      if '=' ∈ a then
        let parts := splitFirstEq a
        mapArgSliceAux rest (res.insert parts.1 parts.2)
      else
        match rest with
        | [] => none
        | next :: rest2 =>
          if listStartsWith (gs "-") next then
            mapArgSliceAux (next :: rest2) (res.insert a [])
          else
            mapArgSliceAux rest2 (res.insert a next)
    else if listStartsWith (gs "-") arg then
      mapArgSliceAux rest (insertFlags res (arg.drop 1))
    else
      mapArgSliceAux rest (res.insert arg [])

/-- `mapArgSlice`: parse a unix-style slice of arguments into a map.
`none` models the unguarded-lookahead runtime panic. -/
def mapArgSlice (args : List GoStr) : Option FlagMap :=
  mapArgSliceAux args FlagMap.empty

/-- The subset of `reflect.Kind` values the binder distinguishes.  `Other`
carries the kind's textual name, standing for every kind outside the
supported set (the `default` branches of the source switches). -/
inductive RKind
  | String | Bool
  | Int | Int8 | Int16 | Int32 | Int64
  | Uint | Uint8 | Uint16 | Uint32 | Uint64
  | Float32 | Float64
  | Other (desc : GoStr)
deriving DecidableEq

/-- The value stored in one struct field.  Go float values are modelled as
exact rationals (see the file header). -/
inductive FieldVal
  | vstr (s : GoStr)
  | vbool (b : Bool)
  | vint (n : Int)
  | vuint (n : Nat)
  | vfloat (q : ℚ)
deriving DecidableEq

/-- One field of the destination struct: its name (`t.Elem().Field(i).Name`),
its reflect kind (`val.Kind()`) and its current value. -/
structure Field where
  name : GoStr
  kind : RKind
  val : FieldVal
deriving DecidableEq

/-- The errors `Parse` can return, one constructor per `return`-an-error
site of the source. -/
inductive PErr
  | expectedPointer (kind : GoStr)
  | nilDest
  | notStruct
  | malformedInt (raw : GoStr)
  | malformedUInt (raw : GoStr)
  | malformedFloat (raw : GoStr)
  | intOverflow (n : Int) (k : RKind)
  | uintOverflow (n : Nat) (k : RKind)
  | floatOverflow (q : ℚ) (k : RKind)
  | underflow (raw : GoStr) (k : RKind)
  | unsupported (k : RKind) (name : GoStr)
deriving DecidableEq

/-- Decimal digit test, `'0' ≤ c ≤ '9'`. -/
def isDigitChar (c : Char) : Bool := '0' ≤ c && c ≤ '9'

/-- Value of a decimal digit character. -/
def digitVal (c : Char) : Nat := c.toNat - '0'.toNat

/-- Accumulating base-10 read of a digit string; `none` on any non-digit. -/
def digitsToNatAux : List Char → Nat → Option Nat
  | [], acc => some acc
  | c :: cs, acc =>
    if isDigitChar c then digitsToNatAux cs (acc * 10 + digitVal c) else none

/-- Base-10 value of a non-empty all-digit string, `none` otherwise. -/
def digitsToNat : List Char → Option Nat
  | [] => none
  | c :: cs => digitsToNatAux (c :: cs) 0

/-- Model of `strconv.ParseInt(s, 10, 64)`: optional single `+`/`-` sign,
then a non-empty run of decimal digits, value within the `int64` range;
`none` models a non-nil error (syntax or range). -/
def parseInt64 (s : GoStr) : Option Int :=
  match s with
  | [] => none
  | c :: cs =>
    let neg := c = '-'
    let ds := if c = '-' ∨ c = '+' then cs else c :: cs
    match digitsToNat ds with
    | none => none
    | some n =>
      let v : Int := if neg then -(n : Int) else (n : Int)
      if v < -9223372036854775808 ∨ 9223372036854775807 < v then none else some v

/-- Model of `strconv.ParseUint(s, 10, 64)`: no sign permitted, a non-empty
run of decimal digits, value within the `uint64` range. -/
def parseUint64 (s : GoStr) : Option Nat :=
  match digitsToNat s with
  | none => none
  | some n => if 18446744073709551615 < n then none else some n

/-- Model of `strconv.ParseFloat(s, 64)` restricted to plain signed decimal
literals (optional single `+`/`-` sign, non-empty integer part, optional
`.`-separated all-digit fraction), returning the literal's exact rational
value.  Every literal these claims touch is exactly representable as a
`float64`, so this model agrees with Go there. -/
def parseFloatQ (s : GoStr) : Option ℚ :=
  match s with
  | [] => none
  | c :: cs =>
    let neg := c = '-'
    let ds := if c = '-' ∨ c = '+' then cs else c :: cs
    let ip := ds.takeWhile (fun d => d ≠ '.')
    let rest := ds.dropWhile (fun d => d ≠ '.')
    let frac := rest.drop 1
    match digitsToNat ip with
    | none => none
    | some i =>
      match rest with
      | [] => some (mkRat (if neg then -(i : Int) else (i : Int)) 1)
      | _ :: _ =>
        match digitsToNat frac with
        | none => none
        | some f =>
          let num : Int := (i : Int) * (10 : Int) ^ frac.length + (f : Int)
          some (mkRat (if neg then -num else num) ((10 : Nat) ^ frac.length))

/-- `math.MaxFloat32` as an exact rational: `(2 - 2^-23) * 2^127`. -/
def maxFloat32 : ℚ := mkRat (Int.ofNat (2 ^ 128 - 2 ^ 104)) 1

/-- `math.SmallestNonzeroFloat32` as an exact rational: `2^-149`. -/
def smallestNonzeroFloat32 : ℚ := mkRat 1 (2 ^ 149)

/-- `math.MaxFloat64` as an exact rational: `(2 - 2^-52) * 2^1023`. -/
def maxFloat64 : ℚ := mkRat (Int.ofNat (2 ^ 1024 - 2 ^ 971)) 1

/-- `math.SmallestNonzeroFloat64` as an exact rational: `2^-1074`. -/
def smallestNonzeroFloat64 : ℚ := mkRat 1 (2 ^ 1074)

/-- `checkIntOverflow`: reports whether `n` fits the signed kind `t`
(`false` also for every non-signed kind, the switch's `default`). -/
def checkIntOverflow (n : Int) (t : RKind) : Bool :=
  match t with
  | .Int8 => !(decide (n > 127) || decide (n < -128))
  | .Int16 => !(decide (n > 32767) || decide (n < -32768))
  | .Int32 => !(decide (n > 2147483647) || decide (n < -2147483648))
  | .Int | .Int64 =>
    !(decide (n > 9223372036854775807) || decide (n < -9223372036854775808))
  | _ => false

/-- `checkUIntOverflow`: reports whether `n` fits the unsigned kind `k`.
The source's `n < 0` comparisons on a `uint64` are kept verbatim (they are
identically false, as is `n < 0` on `Nat`). -/
def checkUIntOverflow (n : Nat) (k : RKind) : Bool :=
  match k with
  | .Uint8 => !(decide (n > 255) || decide (n < 0))
  | .Uint16 => !(decide (n > 65535) || decide (n < 0))
  | .Uint32 => !(decide (n > 4294967295) || decide (n < 0))
  | .Uint | .Uint64 => !(decide (n > 18446744073709551615) || decide (n < 0))
  | _ => false

/-- `checkFloatOverflow`: the source compares the value against
`math.MaxFloat*` above and — notably — `math.SmallestNonzeroFloat*` (the
smallest *positive* representable magnitude) below. -/
def checkFloatOverflow (q : ℚ) (k : RKind) : Bool :=
  match k with
  | .Float32 => !(decide (maxFloat32 < q) || decide (q < smallestNonzeroFloat32))
  | .Float64 => !(decide (maxFloat64 < q) || decide (q < smallestNonzeroFloat64))
  | _ => false

/-- Model of `strings.EqualFold` on its ASCII fragment (both strings are
compared with ASCII letters folded to lower case); the only uses here
compare against the ASCII literal `"true"`. -/
def toLowerChar (c : Char) : Char :=
  if 'A' ≤ c ∧ c ≤ 'Z' then Char.ofNat (c.toNat + 32) else c

/-- Case-insensitive string equality (see `toLowerChar`). -/
def equalFold (a b : GoStr) : Bool :=
  decide (a.map toLowerChar = b.map toLowerChar)

/-- One iteration of `Parse`'s field loop: the `switch val.Kind()` body for
a field named `name` of kind `k` whose value before the call is `old`.
`.ok` carries the field's value after the iteration (note the `Bool` arm
leaves `old` in place when the flag is absent: Go's two-result map lookup
`value, ok := args[field.Name]` guards the `SetBool`). -/
def bindField (k : RKind) (name : GoStr) (m : FlagMap) (old : FieldVal) :
    Except PErr FieldVal :=
  match k with
  | .String => .ok (.vstr (m.getD name))
  | .Bool =>
    match m name with
    | some value => .ok (.vbool (equalFold value (gs "true")))
    | none => .ok old
  | .Int | .Int8 | .Int16 | .Int32 | .Int64 =>
    match parseInt64 (m.getD name) with
    | none => .error (.malformedInt (m.getD name))
    | some n =>
      if checkIntOverflow n k then .ok (.vint n) else .error (.intOverflow n k)
  | .Uint | .Uint8 | .Uint16 | .Uint32 | .Uint64 =>
    if '-' ∈ m.getD name then .error (.underflow (m.getD name) k)
    else
      match parseUint64 (m.getD name) with
      | none => .error (.malformedUInt (m.getD name))
      | some n =>
        if checkUIntOverflow n k then .ok (.vuint n)
        else .error (.uintOverflow n k)
  | .Float32 | .Float64 =>
    match parseFloatQ (m.getD name) with
    | none => .error (.malformedFloat (m.getD name))
    | some q =>
      if checkFloatOverflow q k then .ok (.vfloat q)
      else .error (.floatOverflow q k)
  | .Other d => .error (.unsupported (.Other d) name)

/-- `Parse`'s field loop over the whole struct.  Go mutates the struct in
place and `return`s on the first failure, so the result is the struct's
field list after the call together with the error, if any: on failure the
failing field and everything after it keep their pre-call values. -/
def bindFields (fs : List Field) (m : FlagMap) : List Field × Option PErr :=
  match fs with
  | [] => ([], none)
  | f :: rest =>
    match bindField f.kind f.name m f.val with
    | .error e => (f :: rest, some e)
    | .ok v =>
      let r := bindFields rest m
      ({ f with val := v } :: r.1, r.2)

/-- The destination argument `s any` of `Parse`, as the binder's precondition
checks classify it: a non-pointer (with its kind's name), a nil pointer, a
pointer to a non-struct (with the pointee kind's name), or a valid pointer
to a struct with the given fields. -/
inductive DestVal
  | nonPointer (kind : GoStr)
  | nilPointer
  | pointerToNonStruct (elemKind : GoStr)
  | pointerToStruct (fields : List Field)
deriving DecidableEq

/-- `Parse`.  The argument vector `os.Args[1:]` is made explicit.  The outer
`Option` propagates the tokenizer's unguarded-lookahead panic (`none`); a
normal return is `some`: either a single error, or the fully bound field
list. -/
def Parse (s : DestVal) (args : List GoStr) : Option (Except PErr (List Field)) :=
  match s with
  | .nonPointer k => some (.error (.expectedPointer k))
  | .nilPointer => some (.error .nilDest)
  | .pointerToNonStruct _ => some (.error .notStruct)
  | .pointerToStruct fields =>
    match mapArgSlice args with
    | none => none
    | some m =>
      match bindFields fields m with
      | (_, some e) => some (.error e)
      | (fs, none) => some (.ok fs)

/-- The signed-integer kinds of the binder's first numeric switch arm. -/
def isSignedIntKind : RKind → Bool
  | .Int | .Int8 | .Int16 | .Int32 | .Int64 => true
  | _ => false

/-- The unsigned-integer kinds of the binder's second numeric switch arm. -/
def isUnsignedIntKind : RKind → Bool
  | .Uint | .Uint8 | .Uint16 | .Uint32 | .Uint64 => true
  | _ => false

/-- The kinds with a stable textual raw representation (string, bool and the
integer kinds) — the scope of the round-trip property. -/
def simpleKind : RKind → Bool
  | .String | .Bool
  | .Int | .Int8 | .Int16 | .Int32 | .Int64
  | .Uint | .Uint8 | .Uint16 | .Uint32 | .Uint64 => true
  | _ => false

/-- Go's type system guarantee that a field's stored value has the field's
kind. -/
def kindMatches : RKind → FieldVal → Bool
  | .String, .vstr _ => true
  | .Bool, .vbool _ => true
  | .Int, .vint _ | .Int8, .vint _ | .Int16, .vint _
  | .Int32, .vint _ | .Int64, .vint _ => true
  | .Uint, .vuint _ | .Uint8, .vuint _ | .Uint16, .vuint _
  | .Uint32, .vuint _ | .Uint64, .vuint _ => true
  | .Float32, .vfloat _ | .Float64, .vfloat _ => true
  | _, _ => false

/-- The smallest value of a signed-integer kind's two's-complement width
(`math.MinInt8` … `math.MinInt64`; the catch-all gives the 64-bit bound,
matching the source's treatment of the native `int`). -/
def intWidthMin : RKind → Int
  | .Int8 => -128
  | .Int16 => -32768
  | .Int32 => -2147483648
  | _ => -9223372036854775808

/-- The largest value of a signed-integer kind's two's-complement width
(`math.MaxInt8` … `math.MaxInt64`). -/
def intWidthMax : RKind → Int
  | .Int8 => 127
  | .Int16 => 32767
  | .Int32 => 2147483647
  | _ => 9223372036854775807

/-- The three errors of `Parse`'s destination precondition checks. -/
def PErr.isInvalidDest : PErr → Bool
  | .expectedPointer _ => true
  | .nilDest => true
  | .notStruct => true
  | _ => false

/-- The decimal digit character for `d < 10`. -/
def digitChar (d : Nat) : Char := Char.ofNat ('0'.toNat + d)

/-- Base-10 representation of a natural number (most significant digit
first), as produced by `strconv.FormatUint` / `fmt`. -/
def natDigits (n : Nat) : List Char :=
  if _h : n < 10 then [digitChar n]
  else natDigits (n / 10) ++ [digitChar (n % 10)]
decreasing_by exact Nat.div_lt_self (by omega) (by omega)

/-- Base-10 representation of an integer, as produced by
`strconv.FormatInt` / `fmt`. -/
def intRepr (n : Int) : GoStr :=
  if n < 0 then '-' :: natDigits n.natAbs else natDigits n.natAbs

/-- The canonical raw text of a field value, used to re-serialize a bound
record as `--name=value` tokens.  Float re-serialization is outside the
round-trip property; it is given a placeholder. -/
def serializeVal : FieldVal → GoStr
  | .vstr s => s
  | .vbool b => if b then gs "true" else gs "false"
  | .vint n => intRepr n
  | .vuint n => natDigits n
  | .vfloat _ => []

/-- One field re-serialized as a `--name=value` token. -/
def serializeField (f : Field) : GoStr :=
  '-' :: '-' :: (f.name ++ '=' :: serializeVal f.val)

/-- A bound record re-serialized as a token stream, one `--name=value`
token per field. -/
def serializeRecord (fs : List Field) : List GoStr := fs.map serializeField

/-- Repeated map insertion, left to right (the flag map a token stream of
pure `--name=value` tokens produces). -/
def insertList (m : FlagMap) : List (GoStr × GoStr) → FlagMap
  | [] => m
  | p :: ps => insertList (m.insert p.1 p.2) ps

/-- What a successful bind guarantees about a field's value, per kind: a
string field holds some string, a bool field some boolean, an integer field
an integer that passes the source's width check. -/
def boundVal : RKind → FieldVal → Prop
  | .String, .vstr _ => True
  | .Bool, .vbool _ => True
  | .Int, .vint n => checkIntOverflow n .Int = true
  | .Int8, .vint n => checkIntOverflow n .Int8 = true
  | .Int16, .vint n => checkIntOverflow n .Int16 = true
  | .Int32, .vint n => checkIntOverflow n .Int32 = true
  | .Int64, .vint n => checkIntOverflow n .Int64 = true
  | .Uint, .vuint n => checkUIntOverflow n .Uint = true
  | .Uint8, .vuint n => checkUIntOverflow n .Uint8 = true
  | .Uint16, .vuint n => checkUIntOverflow n .Uint16 = true
  | .Uint32, .vuint n => checkUIntOverflow n .Uint32 = true
  | .Uint64, .vuint n => checkUIntOverflow n .Uint64 = true
  | _, _ => False

/-! ## Digit-string lemmas -/

theorem isDigitChar_digitChar (d : Nat) (h : d < 10) :
    isDigitChar (digitChar d) = true := by
  interval_cases d <;> decide

theorem digitVal_digitChar (d : Nat) (h : d < 10) : digitVal (digitChar d) = d := by
  interval_cases d <;> decide

theorem digitsToNatAux_append (xs ys : List Char) (acc : Nat) :
    digitsToNatAux (xs ++ ys) acc =
      match digitsToNatAux xs acc with
      | none => none
      | some v => digitsToNatAux ys v := by
  induction xs generalizing acc with
  | nil => simp [digitsToNatAux]
  | cons c cs ih =>
    simp only [List.cons_append, digitsToNatAux]
    by_cases hc : isDigitChar c
    · simp [hc, ih]
    · simp [hc]

theorem digitsToNatAux_natDigits (n : Nat) :
    ∀ acc, digitsToNatAux (natDigits n) acc =
      some (acc * 10 ^ (natDigits n).length + n) := by
  induction n using Nat.strong_induction_on with
  | _ n ih =>
    intro acc
    rw [natDigits]
    by_cases h : n < 10
    · simp [h, digitsToNatAux, isDigitChar_digitChar n h, digitVal_digitChar n h]
    · rw [dif_neg h]
      have hlt : n / 10 < n := Nat.div_lt_self (by omega) (by omega)
      have hm : n % 10 < 10 := Nat.mod_lt _ (by omega)
      rw [digitsToNatAux_append, ih (n / 10) hlt acc]
      simp only [digitsToNatAux, isDigitChar_digitChar _ hm, if_true,
        digitVal_digitChar _ hm, List.length_append, List.length_cons,
        List.length_nil]
      congr 1
      have hdm := Nat.div_add_mod n 10
      rw [pow_succ]
      ring_nf
      omega

theorem natDigits_ne_nil (n : Nat) : natDigits n ≠ [] := by
  rw [natDigits]
  split <;> simp

theorem digitsToNat_natDigits (n : Nat) : digitsToNat (natDigits n) = some n := by
  have h := digitsToNatAux_natDigits n 0
  cases hnd : natDigits n with
  | nil => exact absurd hnd (natDigits_ne_nil n)
  | cons c cs =>
    rw [hnd] at h
    simpa [digitsToNat] using h

theorem natDigits_all_digits (n : Nat) :
    ∀ c ∈ natDigits n, isDigitChar c = true := by
  induction n using Nat.strong_induction_on with
  | _ n ih =>
    intro c hc
    rw [natDigits] at hc
    by_cases h : n < 10
    · rw [dif_pos h] at hc
      simp only [List.mem_singleton] at hc
      exact hc ▸ isDigitChar_digitChar n h
    · rw [dif_neg h] at hc
      rcases List.mem_append.mp hc with h1 | h1
      · exact ih (n / 10) (Nat.div_lt_self (by omega) (by omega)) c h1
      · simp only [List.mem_singleton] at h1
        exact h1 ▸ isDigitChar_digitChar _ (Nat.mod_lt _ (by omega))

theorem digitsToNatAux_all_digits (s : List Char) :
    ∀ acc v, digitsToNatAux s acc = some v → ∀ c ∈ s, isDigitChar c = true := by
  induction s with
  | nil => simp
  | cons c cs ih =>
    intro acc v h d hd
    simp only [digitsToNatAux] at h
    by_cases hc : isDigitChar c
    · rcases List.mem_cons.mp hd with h1 | h1
      · exact h1 ▸ hc
      · exact ih _ _ (by simpa [hc] using h) d h1
    · simp [hc] at h

theorem digitsToNat_all_digits (s : List Char) (v : Nat) (h : digitsToNat s = some v) :
    ∀ c ∈ s, isDigitChar c = true := by
  cases s with
  | nil => simp [digitsToNat] at h
  | cons c cs => exact digitsToNatAux_all_digits (c :: cs) 0 v (by simpa [digitsToNat] using h)

theorem not_isDigitChar_minus : isDigitChar '-' = false := by decide

theorem minus_notin_natDigits (n : Nat) : '-' ∉ natDigits n := by
  intro h
  have := natDigits_all_digits n '-' h
  simp [not_isDigitChar_minus] at this

/-! ## Round-trip lemmas for the numeric parsers -/

theorem parseUint64_natDigits (n : Nat) (h : n ≤ 18446744073709551615) :
    parseUint64 (natDigits n) = some n := by
  rw [parseUint64, digitsToNat_natDigits]
  simp [Nat.not_lt.mpr h]

theorem parseInt64_eval (c : Char) (cs : List Char) (m : Nat)
    (hd : digitsToNat (if c = '-' ∨ c = '+' then cs else c :: cs) = some m) :
    parseInt64 (c :: cs) =
      if (if c = '-' then -(m : Int) else (m : Int)) < -9223372036854775808 ∨
          (9223372036854775807 : Int) < (if c = '-' then -(m : Int) else (m : Int))
      then none
      else some (if c = '-' then -(m : Int) else (m : Int)) := by
  simp only [parseInt64, hd]

theorem parseInt64_eval_none (c : Char) (cs : List Char)
    (hd : digitsToNat (if c = '-' ∨ c = '+' then cs else c :: cs) = none) :
    parseInt64 (c :: cs) = none := by
  simp only [parseInt64, hd]

theorem parseUint64_eval (s : GoStr) (m : Nat) (hd : digitsToNat s = some m) :
    parseUint64 s = if 18446744073709551615 < m then none else some m := by
  simp only [parseUint64, hd]

theorem parseInt64_intRepr (n : Int) (h1 : -9223372036854775808 ≤ n)
    (h2 : n ≤ 9223372036854775807) : parseInt64 (intRepr n) = some n := by
  by_cases hn : n < 0
  · rw [intRepr, if_pos hn]
    have hd : digitsToNat
        (if ('-' : Char) = '-' ∨ ('-' : Char) = '+' then natDigits n.natAbs
         else '-' :: natDigits n.natAbs) = some n.natAbs := by
      rw [if_pos (Or.inl rfl)]
      exact digitsToNat_natDigits _
    rw [parseInt64_eval '-' (natDigits n.natAbs) n.natAbs hd]
    have habs : ((n.natAbs : Int)) = -n := Int.ofNat_natAbs_of_nonpos (le_of_lt hn)
    have hsel : (if ('-' : Char) = '-' then -((n.natAbs : Int)) else ((n.natAbs : Int))) =
        -((n.natAbs : Int)) := if_pos rfl
    rw [hsel, habs, neg_neg, if_neg (by omega)]
  · rw [intRepr, if_neg hn]
    obtain ⟨c, cs, hnd⟩ : ∃ c cs, natDigits n.natAbs = c :: cs := by
      cases hcase : natDigits n.natAbs with
      | nil => exact absurd hcase (natDigits_ne_nil _)
      | cons c cs => exact ⟨c, cs, rfl⟩
    rw [hnd]
    have hcd : isDigitChar c = true :=
      natDigits_all_digits n.natAbs c (hnd ▸ List.mem_cons_self c cs)
    have hcm : ¬(c = '-' ∨ c = '+') := by
      rintro (rfl | rfl) <;> simp [isDigitChar] at hcd
    have hcm2 : ¬(c = '-') := fun hh => hcm (Or.inl hh)
    have hd : digitsToNat (if c = '-' ∨ c = '+' then cs else c :: cs) = some n.natAbs := by
      rw [if_neg hcm, ← hnd]
      exact digitsToNat_natDigits _
    rw [parseInt64_eval c cs n.natAbs hd]
    have habs : ((n.natAbs : Int)) = n := Int.natAbs_of_nonneg (not_lt.mp hn)
    have hsel : (if c = '-' then -((n.natAbs : Int)) else ((n.natAbs : Int))) =
        ((n.natAbs : Int)) := if_neg hcm2
    rw [hsel, habs, if_neg (by omega)]

theorem parseInt64_range (s : GoStr) (n : Int) (h : parseInt64 s = some n) :
    -9223372036854775808 ≤ n ∧ n ≤ 9223372036854775807 := by
  cases s with
  | nil => simp [parseInt64] at h
  | cons c cs =>
    cases hd : digitsToNat (if c = '-' ∨ c = '+' then cs else c :: cs) with
    | none => rw [parseInt64_eval_none c cs hd] at h; exact absurd h (by simp)
    | some v =>
      rw [parseInt64_eval c cs v hd] at h
      by_cases hc : c = '-'
      · simp only [if_pos hc] at h
        split at h
        · exact absurd h (by simp)
        · rw [Option.some_inj] at h
          omega
      · simp only [if_neg hc] at h
        split at h
        · exact absurd h (by simp)
        · rw [Option.some_inj] at h
          omega

theorem parseUint64_le (s : GoStr) (n : Nat) (h : parseUint64 s = some n) :
    n ≤ 18446744073709551615 := by
  cases hd : digitsToNat s with
  | none => simp [parseUint64, hd] at h
  | some v =>
    rw [parseUint64_eval s v hd] at h
    split at h
    · exact absurd h (by simp)
    · rw [Option.some_inj] at h
      omega

theorem parseUint64_no_minus (s : GoStr) (n : Nat) (h : parseUint64 s = some n) :
    '-' ∉ s := by
  intro hm
  cases hd : digitsToNat s with
  | none => simp [parseUint64, hd] at h
  | some v =>
    have := digitsToNat_all_digits s v hd '-' hm
    simp [not_isDigitChar_minus] at this

/-! ## Width-check lemmas -/

theorem checkIntOverflow_iff (n : Int) (k : RKind) (hk : isSignedIntKind k = true) :
    checkIntOverflow n k = true ↔ intWidthMin k ≤ n ∧ n ≤ intWidthMax k := by
  cases k <;>
    simp_all [checkIntOverflow, intWidthMin, intWidthMax, isSignedIntKind] <;> omega

theorem checkIntOverflow_int64_bounds (n : Int) (k : RKind)
    (hk : isSignedIntKind k = true) (h : checkIntOverflow n k = true) :
    -9223372036854775808 ≤ n ∧ n ≤ 9223372036854775807 := by
  cases k <;> simp_all [checkIntOverflow, isSignedIntKind] <;> omega

theorem checkUIntOverflow_le (n : Nat) (k : RKind)
    (hk : isUnsignedIntKind k = true) (h : checkUIntOverflow n k = true) :
    n ≤ 18446744073709551615 := by
  cases k <;> simp_all [checkUIntOverflow, isUnsignedIntKind] <;> omega

/-! ## Claim theorems -/

/-- C1: the specification requires that an argument vector whose final token
is a long flag without `=` must not fault and must bind the flag to an empty
value; the source instead evaluates `args[i+1]` past the end of the slice —
an out-of-bounds runtime fault (`none` in this model), both in the tokenizer
alone and through `Parse`. -/
theorem C1_trailing_long_flag_faults :
    mapArgSlice [gs "--flag"] = none ∧
    Parse (.pointerToStruct [⟨gs "flag", .Bool, .vbool false⟩]) [gs "--flag"] = none :=
  ⟨rfl, rfl⟩

/-- C2 (counterexample): parsing `-abc` against boolean fields `a`, `b`, `c`
does not yield `a=true, b=true, c=true`: each short flag is bound to the
empty raw value, and an empty value is not case-insensitively equal to
`"true"`, so all three fields are assigned `false`. -/
theorem C2_short_cluster_counterexample :
    Parse (.pointerToStruct
        [⟨gs "a", .Bool, .vbool false⟩, ⟨gs "b", .Bool, .vbool false⟩,
         ⟨gs "c", .Bool, .vbool false⟩]) [gs "-abc"] =
      some (.ok
        [⟨gs "a", .Bool, .vbool false⟩, ⟨gs "b", .Bool, .vbool false⟩,
         ⟨gs "c", .Bool, .vbool false⟩]) ∧
    Parse (.pointerToStruct
        [⟨gs "a", .Bool, .vbool false⟩, ⟨gs "b", .Bool, .vbool false⟩,
         ⟨gs "c", .Bool, .vbool false⟩]) [gs "-abc"] ≠
      some (.ok
        [⟨gs "a", .Bool, .vbool true⟩, ⟨gs "b", .Bool, .vbool true⟩,
         ⟨gs "c", .Bool, .vbool true⟩]) :=
  ⟨by decide, by decide⟩

/-- C2 (amended): parsing the single token `-abc` against a record with
boolean fields `a`, `b`, `c` succeeds and assigns `false` to all three
fields, whatever values they held before the call. -/
theorem C2_short_cluster_binds_false (va vb vc : FieldVal) :
    Parse (.pointerToStruct
        [⟨gs "a", .Bool, va⟩, ⟨gs "b", .Bool, vb⟩, ⟨gs "c", .Bool, vc⟩])
      [gs "-abc"] =
      some (.ok
        [⟨gs "a", .Bool, .vbool false⟩, ⟨gs "b", .Bool, .vbool false⟩,
         ⟨gs "c", .Bool, .vbool false⟩]) := rfl

/-- C3 (counterexample): with an empty argument vector, a boolean field `b`
that already holds `true` is returned still `true` — `Parse` does not assign
`false` to a boolean field whose flag is absent from the flag map. -/
theorem C3_absent_bool_counterexample :
    Parse (.pointerToStruct [⟨gs "b", .Bool, .vbool true⟩]) [] =
      some (.ok [⟨gs "b", .Bool, .vbool true⟩]) ∧
    Parse (.pointerToStruct [⟨gs "b", .Bool, .vbool true⟩]) [] ≠
      some (.ok [⟨gs "b", .Bool, .vbool false⟩]) :=
  ⟨by decide, by decide⟩

/-- C3 (amended): for every boolean field whose flag name is absent from the
flag map, `Parse` leaves the field's value unmodified (the two-result map
lookup `value, ok := args[field.Name]` guards the assignment); a
zero-initialized field therefore stays `false`, but a pre-set field keeps its
previous value. -/
theorem C3_absent_bool_unmodified :
    (∀ (name : GoStr) (m : FlagMap) (old : FieldVal), m name = none →
      bindField .Bool name m old = .ok old) ∧
    Parse (.pointerToStruct [⟨gs "b", .Bool, .vbool true⟩]) [] =
      some (.ok [⟨gs "b", .Bool, .vbool true⟩]) := by
  refine ⟨fun name m old h => ?_, by decide⟩
  simp [bindField, h]

/-- C3 witness: the amended statement applied at a concrete absent flag. -/
theorem C3_absent_bool_unmodified_witness :
    bindField .Bool (gs "b") FlagMap.empty (.vbool true) = .ok (.vbool true) :=
  C3_absent_bool_unmodified.1 (gs "b") FlagMap.empty (.vbool true) rfl

section FloatChecks

set_option maxRecDepth 40000
set_option exponentiation.threshold 1200

/-- C4: the float overflow check compares against
`math.SmallestNonzeroFloat*` — the smallest *positive* representable
magnitude — as its lower bound, so in-range values that are zero or negative
(e.g. `-1.5` and `0`) are reported as overflowing; `--f=-1.5` against a
`float32` field makes `Parse` fail with an overflow error instead of
assigning `-1.5`, contradicting the claim that all in-range values
(including zero and negatives) are assigned successfully. -/
theorem C4_float_lower_bound_rejects_nonpositive :
    checkFloatOverflow (mkRat (-3) 2) .Float32 = false ∧
    checkFloatOverflow (mkRat (-3) 2) .Float64 = false ∧
    checkFloatOverflow (mkRat 0 1) .Float32 = false ∧
    checkFloatOverflow (mkRat 0 1) .Float64 = false ∧
    Parse (.pointerToStruct [⟨gs "f", .Float32, .vfloat (mkRat 0 1)⟩])
      [gs "--f=-1.5"] =
      some (.error (.floatOverflow (mkRat (-15) 10) .Float32)) := by
  refine ⟨by decide, by decide, by decide, by decide, by decide⟩

end FloatChecks

/-- C5: for every unsigned-integer field, a raw value that contains `-`
anywhere fails with an underflow error before any numeric parsing is
attempted (a purely textual pre-check); in particular `--n=-5` against a
`uint32` field fails with an underflow error. -/
theorem C5_uint_minus_underflow :
    (∀ k, isUnsignedIntKind k = true →
      ∀ (name : GoStr) (m : FlagMap) (old : FieldVal), '-' ∈ m.getD name →
        bindField k name m old = .error (.underflow (m.getD name) k)) ∧
    Parse (.pointerToStruct [⟨gs "n", .Uint32, .vuint 0⟩]) [gs "--n=-5"] =
      some (.error (.underflow (gs "-5") .Uint32)) := by
  refine ⟨fun k hk name m old h => ?_, by decide⟩
  cases k <;> simp_all [bindField, isUnsignedIntKind]

/-- C5 witness: the underflow pre-check applied at a concrete `uint8` field
with raw value `-5`. -/
theorem C5_uint_minus_underflow_witness :
    bindField .Uint8 (gs "n") (FlagMap.empty.insert (gs "n") (gs "-5")) (.vuint 0) =
      .error (.underflow (gs "-5") .Uint8) :=
  C5_uint_minus_underflow.1 .Uint8 rfl (gs "n")
    (FlagMap.empty.insert (gs "n") (gs "-5")) (.vuint 0) (by decide)

/-- C6: for every signed-integer field of declared width `w`, the raw value
is parsed as a base-10 signed 64-bit integer — a non-integer literal is a
parse error — and the parsed value is assigned iff it lies within
`[min(w), max(w)]`, with an overflow error otherwise; in particular
`--n=300` against an `int8` field fails with an overflow error. -/
theorem C6_signed_int_width_check :
    (∀ k, isSignedIntKind k = true →
      ∀ (name : GoStr) (m : FlagMap) (old : FieldVal),
        (parseInt64 (m.getD name) = none →
          bindField k name m old = .error (.malformedInt (m.getD name))) ∧
        (∀ n, parseInt64 (m.getD name) = some n →
          (intWidthMin k ≤ n ∧ n ≤ intWidthMax k →
            bindField k name m old = .ok (.vint n)) ∧
          (¬(intWidthMin k ≤ n ∧ n ≤ intWidthMax k) →
            bindField k name m old = .error (.intOverflow n k)))) ∧
    Parse (.pointerToStruct [⟨gs "n", .Int8, .vint 0⟩]) [gs "--n=300"] =
      some (.error (.intOverflow 300 .Int8)) := by
  refine ⟨fun k hk name m old => ?_, by decide⟩
  refine ⟨fun hnone => ?_, fun n hsome => ⟨fun hin => ?_, fun hout => ?_⟩⟩
  · cases k <;> simp_all [bindField, isSignedIntKind]
  · have hchk : checkIntOverflow n k = true := (checkIntOverflow_iff n k hk).mpr hin
    cases k <;> simp_all [bindField, isSignedIntKind]
  · have hchk : checkIntOverflow n k = false := by
      rcases Bool.eq_false_or_eq_true (checkIntOverflow n k) with hb | hb
      · exact absurd ((checkIntOverflow_iff n k hk).mp hb) hout
      · exact hb
    cases k <;> simp_all [bindField, isSignedIntKind]

/-- C6 witness: the width check applied at a concrete `int8` field with raw
value `300` (a parsed value outside `[-128, 127]`). -/
theorem C6_signed_int_width_check_witness :
    bindField .Int8 (gs "n") (FlagMap.empty.insert (gs "n") (gs "300")) (.vint 0) =
      .error (.intOverflow 300 .Int8) :=
  ((C6_signed_int_width_check.1 .Int8 rfl (gs "n")
      (FlagMap.empty.insert (gs "n") (gs "300")) (.vint 0)).2 300
    (by decide)).2 (by decide)

/-- C7: for every destination value that is not a non-nil pointer to a
struct, `Parse` returns a descriptive invalid-destination error, and the
result does not depend on the argument vector (the arguments are never
inspected and no field is bound). -/
theorem C7_invalid_destination (d : DestVal)
    (h : ∀ fs, d ≠ .pointerToStruct fs) (args : List GoStr) :
    (∃ e, Parse d args = some (.error e) ∧ e.isInvalidDest = true) ∧
    Parse d args = Parse d [] := by
  cases d with
  | nonPointer k => exact ⟨⟨.expectedPointer k, rfl, rfl⟩, rfl⟩
  | nilPointer => exact ⟨⟨.nilDest, rfl, rfl⟩, rfl⟩
  | pointerToNonStruct k => exact ⟨⟨.notStruct, rfl, rfl⟩, rfl⟩
  | pointerToStruct fs => exact absurd rfl (h fs)

/-- C7 witness: a nil destination with a non-empty argument vector. -/
theorem C7_invalid_destination_witness :
    (∃ e, Parse .nilPointer [gs "--x=1"] = some (.error e) ∧ e.isInvalidDest = true) ∧
    Parse .nilPointer [gs "--x=1"] = Parse .nilPointer [] :=
  C7_invalid_destination .nilPointer (fun _ hh => DestVal.noConfusion hh) [gs "--x=1"]

/-- C10: for fields of kind `int`, `int64`, `uint`, `uint64` the overflow
branch is unreachable: every value accepted by the 64-bit parse step passes
the width check (`checkIntOverflow` / `checkUIntOverflow` hold on the whole
64-bit range at these kinds), so a successfully parsed value of these kinds
is always assigned. -/
theorem C10_full_width_check_total :
    (∀ k, (k = RKind.Int ∨ k = RKind.Int64) →
      (∀ n : Int, -9223372036854775808 ≤ n → n ≤ 9223372036854775807 →
        checkIntOverflow n k = true) ∧
      ∀ (name : GoStr) (m : FlagMap) (old : FieldVal) (n : Int),
        parseInt64 (m.getD name) = some n → bindField k name m old = .ok (.vint n)) ∧
    (∀ k, (k = RKind.Uint ∨ k = RKind.Uint64) →
      (∀ n : Nat, n ≤ 18446744073709551615 → checkUIntOverflow n k = true) ∧
      ∀ (name : GoStr) (m : FlagMap) (old : FieldVal) (n : Nat),
        parseUint64 (m.getD name) = some n → bindField k name m old = .ok (.vuint n)) := by
  constructor
  · intro k hk
    constructor
    · intro n h1 h2
      rcases hk with rfl | rfl <;> simp [checkIntOverflow] <;> omega
    · intro name m old n hp
      have hr := parseInt64_range _ _ hp
      have hchk : checkIntOverflow n k = true := by
        rcases hk with rfl | rfl <;> simp [checkIntOverflow] <;> omega
      rcases hk with rfl | rfl <;> simp [bindField, hp, hchk]
  · intro k hk
    constructor
    · intro n h1
      rcases hk with rfl | rfl <;> simp [checkUIntOverflow] <;> omega
    · intro name m old n hp
      have hm : '-' ∉ m.getD name := parseUint64_no_minus _ _ hp
      have hchk : checkUIntOverflow n k = true := by
        have := parseUint64_le _ _ hp
        rcases hk with rfl | rfl <;> simp [checkUIntOverflow] <;> omega
      rcases hk with rfl | rfl <;> simp [bindField, hm, hp, hchk]

/-- C10 witness: concrete full-width fields accept parsed values. -/
theorem C10_full_width_check_total_witness :
    checkIntOverflow 5 .Int64 = true ∧
    bindField .Int64 (gs "n") (FlagMap.empty.insert (gs "n") (gs "5")) (.vint 0) =
      .ok (.vint 5) ∧
    checkUIntOverflow 7 .Uint = true ∧
    bindField .Uint (gs "u") (FlagMap.empty.insert (gs "u") (gs "7")) (.vuint 0) =
      .ok (.vuint 7) :=
  ⟨(C10_full_width_check_total.1 .Int64 (Or.inr rfl)).1 5 (by decide) (by decide),
   (C10_full_width_check_total.1 .Int64 (Or.inr rfl)).2 (gs "n")
     (FlagMap.empty.insert (gs "n") (gs "5")) (.vint 0) 5 (by decide),
   (C10_full_width_check_total.2 .Uint (Or.inl rfl)).1 7 (by decide),
   (C10_full_width_check_total.2 .Uint (Or.inl rfl)).2 (gs "u")
     (FlagMap.empty.insert (gs "u") (gs "7")) (.vuint 0) 7 (by decide)⟩

/-- C8: whenever the binder returns an error, there is a failing field index
`i` — the field at `i` is the one whose binding failed — and every field at
index `i` or later (in particular every index greater than `i`) keeps its
pre-call value: the loop binds fields in order and returns at the first
failure without writing the failing field. -/
theorem C8_fail_fast_frame (fs : List Field) (m : FlagMap) (fs' : List Field)
    (e : PErr) (h : bindFields fs m = (fs', some e)) :
    ∃ i f, fs.get? i = some f ∧ bindField f.kind f.name m f.val = .error e ∧
      ∀ j, i ≤ j → fs'.get? j = fs.get? j := by
  induction fs generalizing fs' with
  | nil => simp [bindFields] at h
  | cons f rest ih =>
    cases hb : bindField f.kind f.name m f.val with
    | error e2 =>
      have h' : ((f :: rest, some e2) : List Field × Option PErr) = (fs', some e) := by
        rw [← h]
        simp [bindFields, hb]
      obtain ⟨h1, h2⟩ := Prod.mk.injEq .. ▸ h'
      refine ⟨0, f, rfl, ?_, ?_⟩
      · rw [hb]
        simp_all
      · intro j _
        rw [← h1]
    | ok v =>
      cases hr : bindFields rest m with
      | mk rs r2 =>
        have h' : (({ f with val := v } :: rs, r2) : List Field × Option PErr) =
            (fs', some e) := by
          rw [← h]
          simp [bindFields, hb, hr]
        obtain ⟨h1, h2⟩ := Prod.mk.injEq .. ▸ h'
        obtain ⟨i, g, hg1, hg2, hg3⟩ := ih rs (by rw [hr, h2])
        refine ⟨i + 1, g, by simpa using hg1, hg2, ?_⟩
        intro j hj
        cases j with
        | zero => omega
        | succ j2 =>
          rw [← h1]
          simpa using hg3 j2 (by omega)

/-- C8 witness: a three-field record whose middle field (`int8` receiving
`300`) fails to bind; the theorem applied at it. -/
theorem C8_fail_fast_frame_witness :
    ∃ i f,
      ([⟨gs "a", RKind.String, FieldVal.vstr []⟩, ⟨gs "n", .Int8, .vint 0⟩,
        ⟨gs "z", .String, .vstr (gs "q")⟩] : List Field).get? i = some f ∧
      bindField f.kind f.name (FlagMap.empty.insert (gs "n") (gs "300")) f.val =
        .error (.intOverflow 300 .Int8) ∧
      ∀ j, i ≤ j →
        ([⟨gs "a", RKind.String, FieldVal.vstr []⟩, ⟨gs "n", .Int8, .vint 0⟩,
          ⟨gs "z", .String, .vstr (gs "q")⟩] : List Field).get? j =
          ([⟨gs "a", RKind.String, FieldVal.vstr []⟩, ⟨gs "n", .Int8, .vint 0⟩,
            ⟨gs "z", .String, .vstr (gs "q")⟩] : List Field).get? j :=
  C8_fail_fast_frame
    [⟨gs "a", RKind.String, FieldVal.vstr []⟩, ⟨gs "n", .Int8, .vint 0⟩,
     ⟨gs "z", .String, .vstr (gs "q")⟩]
    (FlagMap.empty.insert (gs "n") (gs "300"))
    [⟨gs "a", RKind.String, FieldVal.vstr []⟩, ⟨gs "n", .Int8, .vint 0⟩,
     ⟨gs "z", .String, .vstr (gs "q")⟩]
    (.intOverflow 300 .Int8) (by decide)

/-! ## Round-trip lemmas for the binder and tokenizer -/

theorem bindField_ok_boundVal (k : RKind) (name : GoStr) (m : FlagMap)
    (old v : FieldVal) (hsk : simpleKind k = true)
    (hold : kindMatches k old = true)
    (h : bindField k name m old = .ok v) : boundVal k v := by
  cases k with
  | String =>
    simp only [bindField, Except.ok.injEq] at h
    rw [← h]
    trivial
  | Bool =>
    cases hm : m name with
    | some value =>
      simp only [bindField, hm, Except.ok.injEq] at h
      rw [← h]
      trivial
    | none =>
      simp only [bindField, hm, Except.ok.injEq] at h
      rw [← h]
      cases old with
      | vbool b => trivial
      | vstr s => simp [kindMatches] at hold
      | vint n => simp [kindMatches] at hold
      | vuint n => simp [kindMatches] at hold
      | vfloat q => simp [kindMatches] at hold
  | Int =>
    cases hp : parseInt64 (m.getD name) with
    | none => simp [bindField, hp] at h
    | some n =>
      by_cases hc : checkIntOverflow n .Int = true
      · simp only [bindField, hp, hc, if_true, Except.ok.injEq] at h
        rw [← h]
        exact hc
      · simp [bindField, hp, hc] at h
  | Int8 =>
    cases hp : parseInt64 (m.getD name) with
    | none => simp [bindField, hp] at h
    | some n =>
      by_cases hc : checkIntOverflow n .Int8 = true
      · simp only [bindField, hp, hc, if_true, Except.ok.injEq] at h
        rw [← h]
        exact hc
      · simp [bindField, hp, hc] at h
  | Int16 =>
    cases hp : parseInt64 (m.getD name) with
    | none => simp [bindField, hp] at h
    | some n =>
      by_cases hc : checkIntOverflow n .Int16 = true
      · simp only [bindField, hp, hc, if_true, Except.ok.injEq] at h
        rw [← h]
        exact hc
      · simp [bindField, hp, hc] at h
  | Int32 =>
    cases hp : parseInt64 (m.getD name) with
    | none => simp [bindField, hp] at h
    | some n =>
      by_cases hc : checkIntOverflow n .Int32 = true
      · simp only [bindField, hp, hc, if_true, Except.ok.injEq] at h
        rw [← h]
        exact hc
      · simp [bindField, hp, hc] at h
  | Int64 =>
    cases hp : parseInt64 (m.getD name) with
    | none => simp [bindField, hp] at h
    | some n =>
      by_cases hc : checkIntOverflow n .Int64 = true
      · simp only [bindField, hp, hc, if_true, Except.ok.injEq] at h
        rw [← h]
        exact hc
      · simp [bindField, hp, hc] at h
  | Uint =>
    by_cases hminus : '-' ∈ m.getD name
    · simp [bindField, hminus] at h
    · cases hp : parseUint64 (m.getD name) with
      | none => simp [bindField, hminus, hp] at h
      | some n =>
        by_cases hc : checkUIntOverflow n .Uint = true
        · simp only [bindField, hminus, hp, hc, if_true, if_false, ite_false,
            Except.ok.injEq] at h
          rw [← h]
          exact hc
        · simp [bindField, hminus, hp, hc] at h
  | Uint8 =>
    by_cases hminus : '-' ∈ m.getD name
    · simp [bindField, hminus] at h
    · cases hp : parseUint64 (m.getD name) with
      | none => simp [bindField, hminus, hp] at h
      | some n =>
        by_cases hc : checkUIntOverflow n .Uint8 = true
        · simp only [bindField, hminus, hp, hc, if_true, if_false, ite_false,
            Except.ok.injEq] at h
          rw [← h]
          exact hc
        · simp [bindField, hminus, hp, hc] at h
  | Uint16 =>
    by_cases hminus : '-' ∈ m.getD name
    · simp [bindField, hminus] at h
    · cases hp : parseUint64 (m.getD name) with
      | none => simp [bindField, hminus, hp] at h
      | some n =>
        by_cases hc : checkUIntOverflow n .Uint16 = true
        · simp only [bindField, hminus, hp, hc, if_true, if_false, ite_false,
            Except.ok.injEq] at h
          rw [← h]
          exact hc
        · simp [bindField, hminus, hp, hc] at h
  | Uint32 =>
    by_cases hminus : '-' ∈ m.getD name
    · simp [bindField, hminus] at h
    · cases hp : parseUint64 (m.getD name) with
      | none => simp [bindField, hminus, hp] at h
      | some n =>
        by_cases hc : checkUIntOverflow n .Uint32 = true
        · simp only [bindField, hminus, hp, hc, if_true, if_false, ite_false,
            Except.ok.injEq] at h
          rw [← h]
          exact hc
        · simp [bindField, hminus, hp, hc] at h
  | Uint64 =>
    by_cases hminus : '-' ∈ m.getD name
    · simp [bindField, hminus] at h
    · cases hp : parseUint64 (m.getD name) with
      | none => simp [bindField, hminus, hp] at h
      | some n =>
        by_cases hc : checkUIntOverflow n .Uint64 = true
        · simp only [bindField, hminus, hp, hc, if_true, if_false, ite_false,
            Except.ok.injEq] at h
          rw [← h]
          exact hc
        · simp [bindField, hminus, hp, hc] at h
  | Float32 => simp [simpleKind] at hsk
  | Float64 => simp [simpleKind] at hsk
  | Other d => simp [simpleKind] at hsk

theorem bindFields_ok_shape (fs : List Field) (m : FlagMap) :
    ∀ fs', bindFields fs m = (fs', none) →
      (∀ f ∈ fs, simpleKind f.kind = true ∧ kindMatches f.kind f.val = true) →
      fs'.map (fun f => (f.name, f.kind)) = fs.map (fun f => (f.name, f.kind)) ∧
      ∀ f ∈ fs', simpleKind f.kind = true ∧ boundVal f.kind f.val := by
  induction fs with
  | nil =>
    intro fs' h _
    simp [bindFields] at h
    subst h
    simp
  | cons f rest ih =>
    intro fs' h hsk
    cases hb : bindField f.kind f.name m f.val with
    | error e => simp [bindFields, hb] at h
    | ok v =>
      cases hr : bindFields rest m with
      | mk rs r2 =>
        have h' : (({ f with val := v } :: rs, r2) : List Field × Option PErr) =
            (fs', none) := by
          rw [← h]
          simp [bindFields, hb, hr]
        obtain ⟨h1, h2⟩ := Prod.mk.injEq .. ▸ h'
        obtain ⟨hmap, hall⟩ :=
          ih rs (by rw [hr, h2]) (fun g hg => hsk g (List.mem_cons_of_mem f hg))
        constructor
        · rw [← h1]
          simpa using hmap
        · intro g hg
          rw [← h1] at hg
          rcases List.mem_cons.mp hg with rfl | hg2
          · have hf := hsk f (List.mem_cons_self f rest)
            exact ⟨hf.1, bindField_ok_boundVal f.kind f.name m f.val v hf.1 hf.2 hb⟩
          · exact hall g hg2

theorem splitFirstEq_of_no_eq (name v : GoStr) (h : '=' ∉ name) :
    splitFirstEq (name ++ '=' :: v) = (name, v) := by
  induction name with
  | nil => simp [splitFirstEq]
  | cons c cs ih =>
    have hc : ¬(c = '=') := fun hh =>
      h (hh ▸ List.mem_cons_self c cs)
    simp [splitFirstEq, hc, ih (fun hm => h (List.mem_cons_of_mem c hm))]

theorem mapArgSliceAux_serialized (fs : List Field) (m : FlagMap)
    (h : ∀ f ∈ fs, '=' ∉ f.name) :
    mapArgSliceAux (serializeRecord fs) m =
      some (insertList m (fs.map fun f => (f.name, serializeVal f.val))) := by
  induction fs generalizing m with
  | nil => simp [serializeRecord, mapArgSliceAux, insertList]
  | cons f rest ih =>
    have hmem : '=' ∉ f.name := h f (List.mem_cons_self f rest)
    have hsw : listStartsWith (gs "--")
        ('-' :: '-' :: (f.name ++ '=' :: serializeVal f.val)) = true := rfl
    have h3 : '=' ∈ f.name ++ '=' :: serializeVal f.val :=
      List.mem_append.mpr (Or.inr (List.mem_cons_self '=' (serializeVal f.val)))
    have hrec := ih (m.insert f.name (serializeVal f.val))
      (fun g hg => h g (List.mem_cons_of_mem f hg))
    show mapArgSliceAux (('-' :: '-' :: (f.name ++ '=' :: serializeVal f.val)) ::
        serializeRecord rest) m = _
    rw [mapArgSliceAux]
    simp only [hsw, List.drop_succ_cons, List.drop_zero, if_true, h3,
      splitFirstEq_of_no_eq f.name (serializeVal f.val) hmem]
    rw [hrec]
    simp [insertList]

theorem insertList_lookup_notmem (m : FlagMap) (ps : List (GoStr × GoStr))
    (k : GoStr) (h : k ∉ ps.map Prod.fst) : insertList m ps k = m k := by
  induction ps generalizing m with
  | nil => rfl
  | cons p ps ih =>
    simp only [List.map_cons, List.mem_cons, not_or] at h
    rw [insertList, ih _ h.2]
    simp [FlagMap.insert, h.1]

theorem insertList_lookup (m : FlagMap) (ps : List (GoStr × GoStr))
    (k : GoStr) (v : GoStr) (hmem : (k, v) ∈ ps)
    (hnd : (ps.map Prod.fst).Nodup) : insertList m ps k = some v := by
  induction ps generalizing m with
  | nil => simp at hmem
  | cons p ps ih =>
    simp only [List.map_cons, List.nodup_cons] at hnd
    rcases List.mem_cons.mp hmem with heq | hmem2
    · have hk : p.1 = k := by rw [← heq]
      have hnotin : k ∉ ps.map Prod.fst := hk ▸ hnd.1
      rw [insertList, insertList_lookup_notmem _ _ _ hnotin]
      simp [FlagMap.insert, ← heq]
    · rw [insertList]
      exact ih _ hmem2 hnd.2

theorem bindField_serialized (k : RKind) (name : GoStr) (m2 : FlagMap)
    (v : FieldVal) (hb : boundVal k v)
    (hm : m2 name = some (serializeVal v)) :
    bindField k name m2 v = .ok v := by
  have hgd : m2.getD name = serializeVal v := by simp [FlagMap.getD, hm]
  cases k with
  | String =>
    cases v with
    | vstr s => simp [bindField, hgd, serializeVal]
    | vbool b => simp [boundVal] at hb
    | vint n => simp [boundVal] at hb
    | vuint n => simp [boundVal] at hb
    | vfloat q => simp [boundVal] at hb
  | Bool =>
    cases v with
    | vbool b => cases b <;> simp [bindField, hm, serializeVal] <;> decide
    | vstr s => simp [boundVal] at hb
    | vint n => simp [boundVal] at hb
    | vuint n => simp [boundVal] at hb
    | vfloat q => simp [boundVal] at hb
  | Int =>
    cases v with
    | vint n =>
      have hc : checkIntOverflow n .Int = true := hb
      have hbounds := checkIntOverflow_int64_bounds n .Int rfl hc
      have hp : parseInt64 (intRepr n) = some n :=
        parseInt64_intRepr n hbounds.1 hbounds.2
      simp [bindField, hgd, serializeVal, hp, hc]
    | vstr s => simp [boundVal] at hb
    | vbool b => simp [boundVal] at hb
    | vuint n => simp [boundVal] at hb
    | vfloat q => simp [boundVal] at hb
  | Int8 =>
    cases v with
    | vint n =>
      have hc : checkIntOverflow n .Int8 = true := hb
      have hbounds := checkIntOverflow_int64_bounds n .Int8 rfl hc
      have hp : parseInt64 (intRepr n) = some n :=
        parseInt64_intRepr n hbounds.1 hbounds.2
      simp [bindField, hgd, serializeVal, hp, hc]
    | vstr s => simp [boundVal] at hb
    | vbool b => simp [boundVal] at hb
    | vuint n => simp [boundVal] at hb
    | vfloat q => simp [boundVal] at hb
  | Int16 =>
    cases v with
    | vint n =>
      have hc : checkIntOverflow n .Int16 = true := hb
      have hbounds := checkIntOverflow_int64_bounds n .Int16 rfl hc
      have hp : parseInt64 (intRepr n) = some n :=
        parseInt64_intRepr n hbounds.1 hbounds.2
      simp [bindField, hgd, serializeVal, hp, hc]
    | vstr s => simp [boundVal] at hb
    | vbool b => simp [boundVal] at hb
    | vuint n => simp [boundVal] at hb
    | vfloat q => simp [boundVal] at hb
  | Int32 =>
    cases v with
    | vint n =>
      have hc : checkIntOverflow n .Int32 = true := hb
      have hbounds := checkIntOverflow_int64_bounds n .Int32 rfl hc
      have hp : parseInt64 (intRepr n) = some n :=
        parseInt64_intRepr n hbounds.1 hbounds.2
      simp [bindField, hgd, serializeVal, hp, hc]
    | vstr s => simp [boundVal] at hb
    | vbool b => simp [boundVal] at hb
    | vuint n => simp [boundVal] at hb
    | vfloat q => simp [boundVal] at hb
  | Int64 =>
    cases v with
    | vint n =>
      have hc : checkIntOverflow n .Int64 = true := hb
      have hbounds := checkIntOverflow_int64_bounds n .Int64 rfl hc
      have hp : parseInt64 (intRepr n) = some n :=
        parseInt64_intRepr n hbounds.1 hbounds.2
      simp [bindField, hgd, serializeVal, hp, hc]
    | vstr s => simp [boundVal] at hb
    | vbool b => simp [boundVal] at hb
    | vuint n => simp [boundVal] at hb
    | vfloat q => simp [boundVal] at hb
  | Uint =>
    cases v with
    | vuint n =>
      have hc : checkUIntOverflow n .Uint = true := hb
      have hle := checkUIntOverflow_le n .Uint rfl hc
      have hp : parseUint64 (natDigits n) = some n := parseUint64_natDigits n hle
      simp [bindField, hgd, serializeVal, minus_notin_natDigits n, hp, hc]
    | vstr s => simp [boundVal] at hb
    | vbool b => simp [boundVal] at hb
    | vint n => simp [boundVal] at hb
    | vfloat q => simp [boundVal] at hb
  | Uint8 =>
    cases v with
    | vuint n =>
      have hc : checkUIntOverflow n .Uint8 = true := hb
      have hle := checkUIntOverflow_le n .Uint8 rfl hc
      have hp : parseUint64 (natDigits n) = some n := parseUint64_natDigits n hle
      simp [bindField, hgd, serializeVal, minus_notin_natDigits n, hp, hc]
    | vstr s => simp [boundVal] at hb
    | vbool b => simp [boundVal] at hb
    | vint n => simp [boundVal] at hb
    | vfloat q => simp [boundVal] at hb
  | Uint16 =>
    cases v with
    | vuint n =>
      have hc : checkUIntOverflow n .Uint16 = true := hb
      have hle := checkUIntOverflow_le n .Uint16 rfl hc
      have hp : parseUint64 (natDigits n) = some n := parseUint64_natDigits n hle
      simp [bindField, hgd, serializeVal, minus_notin_natDigits n, hp, hc]
    | vstr s => simp [boundVal] at hb
    | vbool b => simp [boundVal] at hb
    | vint n => simp [boundVal] at hb
    | vfloat q => simp [boundVal] at hb
  | Uint32 =>
    cases v with
    | vuint n =>
      have hc : checkUIntOverflow n .Uint32 = true := hb
      have hle := checkUIntOverflow_le n .Uint32 rfl hc
      have hp : parseUint64 (natDigits n) = some n := parseUint64_natDigits n hle
      simp [bindField, hgd, serializeVal, minus_notin_natDigits n, hp, hc]
    | vstr s => simp [boundVal] at hb
    | vbool b => simp [boundVal] at hb
    | vint n => simp [boundVal] at hb
    | vfloat q => simp [boundVal] at hb
  | Uint64 =>
    cases v with
    | vuint n =>
      have hc : checkUIntOverflow n .Uint64 = true := hb
      have hle := checkUIntOverflow_le n .Uint64 rfl hc
      have hp : parseUint64 (natDigits n) = some n := parseUint64_natDigits n hle
      simp [bindField, hgd, serializeVal, minus_notin_natDigits n, hp, hc]
    | vstr s => simp [boundVal] at hb
    | vbool b => simp [boundVal] at hb
    | vint n => simp [boundVal] at hb
    | vfloat q => simp [boundVal] at hb
  | Float32 => cases v <;> simp [boundVal] at hb
  | Float64 => cases v <;> simp [boundVal] at hb
  | Other d => cases v <;> simp [boundVal] at hb

theorem bindFields_id_of_ok (fs : List Field) (m2 : FlagMap)
    (h : ∀ f ∈ fs, bindField f.kind f.name m2 f.val = .ok f.val) :
    bindFields fs m2 = (fs, none) := by
  induction fs with
  | nil => rfl
  | cons f rest ih =>
    have hh := h f (List.mem_cons_self f rest)
    have hr := ih (fun g hg => h g (List.mem_cons_of_mem f hg))
    simp [bindFields, hh, hr]

/-- C9: every record successfully bound from a token stream — its fields of
string, bool and integer kinds (the kinds with a stable raw representation),
well-typed, with pairwise-distinct field names that contain no `=` (as Go
identifiers are) — when re-serialized as one `--name=value` token per field
and re-parsed, tokenizes without fault and binds again to the identical
record. -/
theorem C9_roundtrip (args : List GoStr) (m : FlagMap) (fs0 fs : List Field)
    (_hargs : mapArgSlice args = some m)
    (hkinds : ∀ f ∈ fs0, simpleKind f.kind = true ∧ kindMatches f.kind f.val = true)
    (hnames : (fs0.map (fun f => f.name)).Nodup)
    (heq : ∀ f ∈ fs0, '=' ∉ f.name)
    (hbind : bindFields fs0 m = (fs, none)) :
    ∃ m2, mapArgSlice (serializeRecord fs) = some m2 ∧
      bindFields fs m2 = (fs, none) := by
  obtain ⟨hmap, hall⟩ := bindFields_ok_shape fs0 m fs hbind hkinds
  have hnames2 : fs.map (fun f => f.name) = fs0.map (fun f => f.name) := by
    have := congrArg (List.map Prod.fst) hmap
    simpa [List.map_map] using this
  have hnd : (fs.map (fun f => f.name)).Nodup := hnames2 ▸ hnames
  have heq2 : ∀ f ∈ fs, '=' ∉ f.name := by
    intro f hf
    have hmm : f.name ∈ fs0.map (fun g => g.name) := by
      rw [← hnames2]
      exact List.mem_map_of_mem _ hf
    obtain ⟨g, hg, hgname⟩ := List.mem_map.mp hmm
    exact hgname ▸ heq g hg
  refine ⟨insertList FlagMap.empty (fs.map fun f => (f.name, serializeVal f.val)),
    ?_, ?_⟩
  · show mapArgSliceAux (serializeRecord fs) FlagMap.empty = _
    exact mapArgSliceAux_serialized fs FlagMap.empty heq2
  apply bindFields_id_of_ok
  intro f hf
  have hkeys : ((fs.map fun f => (f.name, serializeVal f.val)).map Prod.fst) =
      fs.map (fun f => f.name) := by
    simp [List.map_map]
  have hlook :
      insertList FlagMap.empty (fs.map fun f => (f.name, serializeVal f.val)) f.name =
        some (serializeVal f.val) :=
    insertList_lookup _ _ _ _ (List.mem_map_of_mem _ hf) (by rw [hkeys]; exact hnd)
  exact bindField_serialized f.kind f.name _ f.val (hall f hf).2 hlook

/-- C9 witness: the concrete record bound from `--y=hello -b` (a string field
and a bool field), re-serialized and re-parsed to the identical record. -/
theorem C9_roundtrip_witness :
    ∃ m2,
      mapArgSlice (serializeRecord
        [⟨gs "y", RKind.String, FieldVal.vstr (gs "hello")⟩,
         ⟨gs "b", .Bool, .vbool false⟩]) = some m2 ∧
      bindFields
        [⟨gs "y", RKind.String, FieldVal.vstr (gs "hello")⟩,
         ⟨gs "b", .Bool, .vbool false⟩] m2 =
        ([⟨gs "y", RKind.String, FieldVal.vstr (gs "hello")⟩,
          ⟨gs "b", .Bool, .vbool false⟩], none) :=
  C9_roundtrip [gs "--y=hello", gs "-b"]
    ((FlagMap.empty.insert (gs "y") (gs "hello")).insert ['b'] [])
    [⟨gs "y", RKind.String, FieldVal.vstr []⟩, ⟨gs "b", .Bool, .vbool false⟩]
    [⟨gs "y", RKind.String, FieldVal.vstr (gs "hello")⟩, ⟨gs "b", .Bool, .vbool false⟩]
    rfl (by decide) (by decide) (by decide) (by decide)

end Gwargs
